import Mathlib

/-!
Shallow embedding of the Rainbow-Timetravel record service
(`service/record.go`, `api/post_records.go`, `entity/record.go`)
over its SQLite table `record_versions(id, attributes,
actual_update_timestamp, record_id, created_at)`.

Attribute maps (Go `map[string]string` round-tripped through JSON) are
modelled as association lists; a stored `attributes` payload is
`Option Attrs`, where `none` stands for a payload that fails to
`json.Unmarshal` (a corrupted blob).  Each service method is translated
into a pure function over an explicit database state `DB`; fallible
methods return `Except`.
-/

/-- Attribute maps: association lists from keys to values, mirroring
Go `map[string]string` (at most one binding per key in every map the
code builds). -/
abbrev Attrs := List (String × String)

/-- Go `record.Data[key] = *value`: overwrite the binding if the key is
present, otherwise append a new binding. -/
def setKey (m : Attrs) (k v : String) : Attrs :=
  if m.any (fun p => p.1 = k) then
    m.map (fun p => if p.1 = k then (k, v) else p)
  else m ++ [(k, v)]

/-- Go `delete(record.Data, key)`: remove the binding for `k` if any. -/
def delKey (m : Attrs) (k : String) : Attrs :=
  m.filter (fun p => p.1 ≠ k)

/-- A delta as sent to `UpdateRecord`: Go `map[string]*string`, where a
`none` value is the deletion marker (JSON null). -/
abbrev Delta := List (String × Option String)

/-- The `for key, value := range updates` loop shared by `UpdateRecord`
and `UpdateAllRecords`: a present value sets/overwrites the key, a nil
value deletes it. -/
def applyUpdates (updates : Delta) (m : Attrs) : Attrs :=
  updates.foldl (fun acc u =>
    match u.2 with
    | none => delKey acc u.1
    | some v => setKey acc u.1 v) m

/-- One row of the `record_versions` table.  `rowId` is the
autoincrement primary key `id`; `attrs` is the stored `attributes`
payload, `none` when the blob does not unmarshal. -/
structure VersionRow where
  rowId : Nat
  recordId : Int
  actualTs : Int
  createdAt : Int
  attrs : Option Attrs
deriving DecidableEq

/-- Database state: the `records` table (list of ids), the
`record_versions` table in insertion (rowid) order, and the next
autoincrement key. -/
structure DB where
  recordIds : List Int
  versions : List VersionRow
  nextRowId : Nat
deriving DecidableEq

/-- The materialized view `entity.Record` (V2 shape). -/
structure Record where
  id : Int
  version : Int
  updatedTimestamp : Int
  reportedTimestamp : Int
  data : Attrs
deriving DecidableEq

/-- Service-level errors: `ErrRecordDoesNotExist`,
`ErrRecordAlreadyExists`, and a raw `sql.ErrNoRows` surfaced unchanged
by `GetVersionedRecord`. -/
inductive SvcError where
  | recordDoesNotExist
  | recordAlreadyExists
  | noRows
deriving DecidableEq

/-- SQL `where record_id = ?` over `record_versions`. -/
def rowsFor (db : DB) (id : Int) : List VersionRow :=
  db.versions.filter (fun r => r.recordId = id)

/-- Keep the row with the larger `actual_update_timestamp`. -/
def pickMax (a b : VersionRow) : VersionRow :=
  if b.actualTs > a.actualTs then b else a

/-- SQL `order by actual_update_timestamp desc limit 1`. -/
def maxByTs : List VersionRow → Option VersionRow
  | [] => none
  | r :: rs => some (rs.foldl pickMax r)

/-- Ascending order on `actual_update_timestamp`. -/
def tsLE (a b : VersionRow) : Prop := a.actualTs ≤ b.actualTs

instance : DecidableRel tsLE := fun a b =>
  inferInstanceAs (Decidable (a.actualTs ≤ b.actualTs))

instance : IsTotal VersionRow tsLE :=
  ⟨fun a b => Int.le_total a.actualTs b.actualTs⟩

instance : IsTrans VersionRow tsLE :=
  ⟨fun _ _ _ hab hbc => le_trans hab hbc⟩

/-- SQL `order by actual_update_timestamp asc`. -/
def sortByTsAsc (l : List VersionRow) : List VersionRow :=
  l.insertionSort tsLE

/-- Helper of `GetRecordDetails`: the version-number inference query
`select count(*) from record_versions where record_id = ? and
actual_update_timestamp < ?`. -/
def countEarlier (db : DB) (id : Int) (ts : Int) : Nat :=
  ((rowsFor db id).filter (fun r => r.actualTs < ts)).length

/-- `GetRecordDetails`: scan the selected row (a missing row is
`ErrRecordDoesNotExist`), infer the version as `count + 1`, unmarshal
the payload (failure is again `ErrRecordDoesNotExist`), and materialize
the `entity.Record`. -/
def GetRecordDetails (db : DB) (id : Int) (row : Option VersionRow) :
    Except SvcError Record :=
  match row with
  | none => .error .recordDoesNotExist
  | some r =>
    match r.attrs with
    | none => .error .recordDoesNotExist
    | some m =>
      .ok ⟨id, (countEarlier db id r.actualTs : Int) + 1, r.actualTs, r.createdAt, m⟩

/-- `GetRecord`: latest version of the record
(`order by actual_update_timestamp desc limit 1`). -/
def GetRecord (db : DB) (id : Int) : Except SvcError Record :=
  GetRecordDetails db id (maxByTs (rowsFor db id))

/-- `GetRecordAt`: the version in force strictly before `queryTs`
(`actual_update_timestamp < ? order by actual_update_timestamp desc
limit 1`). -/
def GetRecordAt (db : DB) (id : Int) (queryTs : Int) : Except SvcError Record :=
  GetRecordDetails db id
    (maxByTs ((rowsFor db id).filter (fun r => r.actualTs < queryTs)))

/-- `CreateRecord`: fails with `ErrRecordAlreadyExists` when the
`records` table already holds the id; otherwise inserts the identity
row and the first `record_versions` row (created_at = now) and returns
the record at version 1. -/
def CreateRecord (db : DB) (now : Int) (record : Record) :
    DB × Except SvcError Record :=
  if (db.recordIds.filter (fun i => i = record.id)).length ≠ 0 then
    (db, .error .recordAlreadyExists)
  else
    let newRow : VersionRow :=
      ⟨db.nextRowId, record.id, record.updatedTimestamp, now, some record.data⟩
    ({ recordIds := db.recordIds ++ [record.id],
       versions := db.versions ++ [newRow],
       nextRowId := db.nextRowId + 1 },
     .ok ⟨record.id, 1, record.updatedTimestamp, now, record.data⟩)

/-- The rewrite `UpdateAllRecords` performs on one row: rows of this
record with `actual_update_timestamp > updatedTs` get `updates` applied
on top of their stored attributes (an unmarshal failure is ignored,
leaving the empty map as base); every other row is untouched. -/
def cascadeRow (id : Int) (updatedTs : Int) (updates : Delta)
    (r : VersionRow) : VersionRow :=
  if r.recordId = id ∧ r.actualTs > updatedTs then
    { r with attrs := some (applyUpdates updates (r.attrs.getD [])) }
  else r

/-- `UpdateAllRecords`: `select id, attributes … where record_id = ?
and actual_update_timestamp > ?`, apply the delta to each scanned map,
and `update record_versions set attributes = ? where id = ?`. -/
def UpdateAllRecords (db : DB) (id : Int) (updatedTs : Int) (updates : Delta) : DB :=
  { db with versions := db.versions.map (cascadeRow id updatedTs updates) }

/-- `UpdateRecord`: take the version at `updatedTs` as base (propagating
its error), apply the delta, insert the new row with
`created_at = now`, cascade into all strictly later rows, and return
the base record with the new timestamp and inferred version. -/
def UpdateRecord (db : DB) (now : Int) (id : Int) (updatedTs : Int)
    (updates : Delta) : DB × Except SvcError Record :=
  match GetRecordAt db id updatedTs with
  | .error e => (db, .error e)
  | .ok record =>
    let newData := applyUpdates updates record.data
    let db2 : DB :=
      { db with
        versions := db.versions ++ [⟨db.nextRowId, id, updatedTs, now, some newData⟩],
        nextRowId := db.nextRowId + 1 }
    let db3 := UpdateAllRecords db2 id updatedTs updates
    (db3,
     .ok ⟨record.id, (countEarlier db3 id updatedTs : Int) + 1, updatedTs,
          record.reportedTimestamp, newData⟩)

/-- The `version := 1; version = version + 1` numbering loop of
`GetVersions`: materialize the ascending rows with consecutive version
numbers, ignoring unmarshal failures (nil map). -/
def numberFrom (id : Int) (v : Int) : List VersionRow → List Record
  | [] => []
  | r :: rs =>
    ⟨id, v, r.actualTs, r.createdAt, r.attrs.getD []⟩ :: numberFrom id (v + 1) rs

/-- `GetVersions`: existence check through `GetRecord`, then all rows
ascending by `actual_update_timestamp`, numbered from 1. -/
def GetVersions (db : DB) (id : Int) : Except SvcError (List Record) :=
  match GetRecord db id with
  | .error e => .error e
  | .ok _ => .ok (numberFrom id 1 (sortByTsAsc (rowsFor db id)))

/-- SQLite `limit 1 offset version - 1`; a negative offset behaves as
zero. -/
def sqlOffset (version : Int) : Nat := (version - 1).toNat

/-- `GetVersionedRecord` (service): the row at `offset version - 1` of
the ascending order; a missing row surfaces the scan error
(`sql.ErrNoRows`) unchanged, an unmarshal failure is ignored. -/
def GetVersionedRecord (db : DB) (id : Int) (version : Int) :
    Except SvcError Record :=
  match (sortByTsAsc (rowsFor db id))[sqlOffset version]? with
  | none => .error .noRows
  | some r => .ok ⟨id, version, r.actualTs, r.createdAt, r.attrs.getD []⟩

/-- API-level errors of the `GetVersionedRecord` handler: the
`version < 1` rejection and the catch-all for a failing service call. -/
inductive ApiError where
  | invalidVersion
  | svcFailed
deriving DecidableEq

/-- `api.GetVersionedRecord` handler: reject `version < 1` up front,
otherwise call the service and map its error to a client error. -/
def ApiGetVersionedRecord (db : DB) (id : Int) (version : Int) :
    Except ApiError Record :=
  if version < 1 then .error .invalidVersion
  else
    match GetVersionedRecord db id version with
    | .error _ => .error .svcFailed
    | .ok r => .ok r

/-- One step of the map-building loop of `ProcessInput` for a fresh
record: a nil value (deletion marker) is skipped, any other value is
stored. -/
def dropDelStep (acc : Attrs) (p : String × Option String) : Attrs :=
  match p.2 with
  | none => acc
  | some v => setKey acc p.1 v

/-- The map built by `ProcessInput` for a fresh record: range over the
body dropping nil (deletion-marker) values. -/
def dropDeletions (body : Delta) : Attrs :=
  body.foldl dropDelStep []

/-- `api.ProcessInput`: check existence via `GetRecord`; on
`ErrRecordDoesNotExist` create version 1 from the body with deletion
markers dropped, otherwise delegate to `UpdateRecord`; either way
return the underlying call's result unchanged. -/
def ProcessInput (db : DB) (now : Int) (recordId : Int) (updatedTs : Int)
    (body : Delta) : DB × Except SvcError Record :=
  match GetRecord db recordId with
  | .error .recordDoesNotExist =>
    CreateRecord db now ⟨recordId, 1, updatedTs, 0, dropDeletions body⟩
  | _ => UpdateRecord db now recordId updatedTs body

instance {ε α : Type} [DecidableEq ε] [DecidableEq α] : DecidableEq (Except ε α)
  | .ok a, .ok b =>
    if h : a = b then isTrue (by rw [h]) else isFalse (by intro hh; cases hh; exact h rfl)
  | .ok _, .error _ => isFalse (by intro hh; cases hh)
  | .error _, .ok _ => isFalse (by intro hh; cases hh)
  | .error e, .error f =>
    if h : e = f then isTrue (by rw [h]) else isFalse (by intro hh; cases hh; exact h rfl)

/-- Success test on a service result. -/
def isOkE (e : Except SvcError Record) : Bool :=
  match e with
  | .ok _ => true
  | .error _ => false

/-- All stored payloads of a record unmarshal (the spec invariant that
`attributes` is always a valid mapping). -/
def wfForB (db : DB) (id : Int) : Bool :=
  (rowsFor db id).all (fun r => r.attrs.isSome)

-- Concrete scenario of spec §8: create at t=100, update at t=200,
-- retroactive update at t=150.
def dbEmpty : DB := ⟨[], [], 1⟩

def dbOne : DB :=
  (CreateRecord dbEmpty 10 ⟨1, 1, 100, 0, [("hello", "world")]⟩).1

def dbTwo : DB :=
  (UpdateRecord dbOne 20 1 200 [("status", some "ok")]).1

def dbThree : DB :=
  (UpdateRecord dbTwo 30 1 150 [("hello", some "world2")]).1

example : dbOne.versions = [⟨1, 1, 100, 10, some [("hello", "world")]⟩] := by decide

example : dbTwo.versions =
    [⟨1, 1, 100, 10, some [("hello", "world")]⟩,
     ⟨2, 1, 200, 20, some [("hello", "world"), ("status", "ok")]⟩] := by decide

example : dbThree.versions =
    [⟨1, 1, 100, 10, some [("hello", "world")]⟩,
     ⟨2, 1, 200, 20, some [("hello", "world2"), ("status", "ok")]⟩,
     ⟨3, 1, 150, 30, some [("hello", "world2")]⟩] := by decide

example : GetRecordAt dbThree 1 180 =
    .ok ⟨1, 2, 150, 30, [("hello", "world2")]⟩ := by decide

example : GetRecord dbThree 1 =
    .ok ⟨1, 3, 200, 20, [("hello", "world2"), ("status", "ok")]⟩ := by decide

example : GetVersions dbThree 1 =
    .ok [⟨1, 1, 100, 10, [("hello", "world")]⟩,
         ⟨1, 2, 150, 30, [("hello", "world2")]⟩,
         ⟨1, 3, 200, 20, [("hello", "world2"), ("status", "ok")]⟩] := by decide

/-! ### Helper lemmas about the embedding -/

theorem foldl_pickMax_choice : ∀ (rs : List VersionRow) (r : VersionRow),
    rs.foldl pickMax r = r ∨ rs.foldl pickMax r ∈ rs
  | [], _ => Or.inl rfl
  | x :: xs, r => by
    simp only [List.foldl_cons]
    rcases foldl_pickMax_choice xs (pickMax r x) with h | h
    · rw [h]
      unfold pickMax
      split
      · exact Or.inr (List.mem_cons_self x xs)
      · exact Or.inl rfl
    · exact Or.inr (List.mem_cons_of_mem x h)

theorem le_foldl_pickMax : ∀ (rs : List VersionRow) (r : VersionRow),
    r.actualTs ≤ (rs.foldl pickMax r).actualTs
  | [], _ => le_refl _
  | x :: xs, r => by
    simp only [List.foldl_cons]
    refine le_trans ?_ (le_foldl_pickMax xs (pickMax r x))
    unfold pickMax
    split
    next h => exact le_of_lt h
    next => exact le_refl _

theorem mem_le_foldl_pickMax : ∀ (rs : List VersionRow) (r : VersionRow),
    ∀ x ∈ rs, x.actualTs ≤ (rs.foldl pickMax r).actualTs
  | [], _, x, hx => absurd hx (List.not_mem_nil x)
  | y :: ys, r, x, hx => by
    simp only [List.foldl_cons]
    rcases List.mem_cons.mp hx with rfl | hmem
    · refine le_trans ?_ (le_foldl_pickMax ys (pickMax r x))
      unfold pickMax
      split
      next => exact le_refl _
      next h => exact le_of_not_lt h
    · exact mem_le_foldl_pickMax ys (pickMax r y) x hmem

theorem maxByTs_mem {l : List VersionRow} {r : VersionRow}
    (h : maxByTs l = some r) : r ∈ l := by
  cases l with
  | nil => cases h
  | cons a as =>
    simp only [maxByTs, Option.some.injEq] at h
    subst h
    rcases foldl_pickMax_choice as a with h | h
    · rw [h]; exact List.mem_cons_self a as
    · exact List.mem_cons_of_mem a h

theorem maxByTs_ge {l : List VersionRow} {r : VersionRow}
    (h : maxByTs l = some r) : ∀ x ∈ l, x.actualTs ≤ r.actualTs := by
  cases l with
  | nil => cases h
  | cons a as =>
    simp only [maxByTs, Option.some.injEq] at h
    subst h
    intro x hx
    rcases List.mem_cons.mp hx with rfl | hmem
    · exact le_foldl_pickMax as x
    · exact mem_le_foldl_pickMax as a x hmem

theorem maxByTs_eq_none {l : List VersionRow} : maxByTs l = none ↔ l = [] := by
  cases l <;> simp [maxByTs]

/-- The combined predicate of the version-inference count, over raw
table rows. -/
def earlyP (i ts : Int) (r : VersionRow) : Bool :=
  decide (r.actualTs < ts) && decide (r.recordId = i)

theorem countEarlier_countP (db : DB) (i ts : Int) :
    countEarlier db i ts = db.versions.countP (earlyP i ts) := by
  unfold countEarlier rowsFor
  rw [List.filter_filter, ← List.countP_eq_length_filter]
  rfl

theorem earlyP_cascadeRow (id T : Int) (u : Delta) (i ts : Int) (r : VersionRow) :
    earlyP i ts (cascadeRow id T u r) = earlyP i ts r := by
  unfold earlyP cascadeRow
  split <;> rfl

theorem cascadeRow_preserves (id T : Int) (u : Delta) (r : VersionRow) :
    (cascadeRow id T u r).rowId = r.rowId ∧
    (cascadeRow id T u r).recordId = r.recordId ∧
    (cascadeRow id T u r).actualTs = r.actualTs ∧
    (cascadeRow id T u r).createdAt = r.createdAt := by
  unfold cascadeRow
  split <;> exact ⟨rfl, rfl, rfl, rfl⟩

theorem cascadeRow_self (id T : Int) (u : Delta) (n : Nat) (now : Int)
    (a : Option Attrs) : cascadeRow id T u ⟨n, id, T, now, a⟩ = ⟨n, id, T, now, a⟩ := by
  unfold cascadeRow
  simp

/-- The database state after a successful `UpdateRecord`: every old row
cascaded, plus the freshly inserted row. -/
def dbAfterUpdate (db : DB) (now id T : Int) (u : Delta) (newData : Attrs) : DB :=
  { recordIds := db.recordIds,
    versions := db.versions.map (cascadeRow id T u) ++
      [⟨db.nextRowId, id, T, now, some newData⟩],
    nextRowId := db.nextRowId + 1 }

theorem countEarlier_dbAfterUpdate (db : DB) (now id T : Int) (u : Delta)
    (newData : Attrs) (i ts : Int) :
    countEarlier (dbAfterUpdate db now id T u newData) i ts =
      countEarlier db i ts + (if T < ts ∧ id = i then 1 else 0) := by
  rw [countEarlier_countP, countEarlier_countP]
  unfold dbAfterUpdate
  simp only [List.countP_append, List.countP_map]
  have h1 : db.versions.countP (earlyP i ts ∘ cascadeRow id T u) =
      db.versions.countP (earlyP i ts) := by
    refine List.countP_congr ?_
    intro r _
    simp [Function.comp, earlyP_cascadeRow]
  rw [h1]
  congr 1
  simp only [List.countP_cons, List.countP_nil]
  unfold earlyP
  by_cases hT : T < ts <;> by_cases hi : id = i <;> simp [hT, hi]

theorem getRecordAt_ok {db : DB} {id T : Int} {base : Record}
    (h : GetRecordAt db id T = .ok base) :
    ∃ r, maxByTs ((rowsFor db id).filter (fun x => x.actualTs < T)) = some r ∧
      r.attrs = some base.data ∧ base.id = id ∧
      base.updatedTimestamp = r.actualTs ∧ base.reportedTimestamp = r.createdAt ∧
      base.version = (countEarlier db id r.actualTs : Int) + 1 := by
  unfold GetRecordAt GetRecordDetails at h
  split at h
  · cases h
  · split at h
    · cases h
    · rename_i xr r hm xa m hat
      cases h
      exact ⟨r, hm, hat, rfl, rfl, rfl, rfl⟩

theorem getRecord_ok {db : DB} {id : Int} {rec : Record}
    (h : GetRecord db id = .ok rec) :
    ∃ r, maxByTs (rowsFor db id) = some r ∧
      r.attrs = some rec.data ∧ rec.id = id ∧
      rec.updatedTimestamp = r.actualTs ∧ rec.reportedTimestamp = r.createdAt ∧
      rec.version = (countEarlier db id r.actualTs : Int) + 1 := by
  unfold GetRecord GetRecordDetails at h
  split at h
  · cases h
  · split at h
    · cases h
    · rename_i xr r hm xa m hat
      cases h
      exact ⟨r, hm, hat, rfl, rfl, rfl, rfl⟩

theorem updateRecord_ok_shape (db : DB) (now id T : Int) (u : Delta) (base : Record)
    (h : GetRecordAt db id T = .ok base) :
    UpdateRecord db now id T u =
      (dbAfterUpdate db now id T u (applyUpdates u base.data),
       .ok ⟨id, (countEarlier db id T : Int) + 1, T, base.reportedTimestamp,
            applyUpdates u base.data⟩) := by
  obtain ⟨r, _, _, hid, _, _, _⟩ := getRecordAt_ok h
  unfold UpdateRecord UpdateAllRecords
  rw [h]
  simp only [List.map_append, List.map_cons, List.map_nil, cascadeRow_self]
  have hdb : ({ db with
      versions := db.versions.map (cascadeRow id T u) ++
        [⟨db.nextRowId, id, T, now, some (applyUpdates u base.data)⟩],
      nextRowId := db.nextRowId + 1 } : DB) =
      dbAfterUpdate db now id T u (applyUpdates u base.data) := rfl
  rw [hdb, countEarlier_dbAfterUpdate]
  simp [hid]

theorem updateRecord_ok_base {db : DB} {now id T : Int} {u : Delta}
    (h : isOkE (UpdateRecord db now id T u).2 = true) :
    ∃ base, GetRecordAt db id T = .ok base := by
  cases hga : GetRecordAt db id T with
  | error e =>
    unfold UpdateRecord at h
    rw [hga] at h
    simp [isOkE] at h
  | ok base => exact ⟨base, rfl⟩

theorem getRecordDetails_some (db : DB) (i : Int) (r : VersionRow) (m : Attrs)
    (hm : r.attrs = some m) :
    GetRecordDetails db i (some r) =
      .ok ⟨i, (countEarlier db i r.actualTs : Int) + 1, r.actualTs, r.createdAt, m⟩ := by
  obtain ⟨a, b, c, d, at0⟩ := r
  cases hm
  rfl

theorem sorted_rank :
    ∀ (l : List VersionRow), l.Sorted tsLE →
      l.Pairwise (fun a b => a.actualTs ≠ b.actualTs) →
      ∀ (i : Nat) (h : i < l.length),
        (l.filter (fun x => x.actualTs < (l.get ⟨i, h⟩).actualTs)).length = i
  | [], _, _, i, h => absurd h (Nat.not_lt_zero i)
  | y :: ys, hs, hd, 0, h => by
    have hnone : ∀ x ∈ y :: ys,
        ¬ (x.actualTs < ((y :: ys).get ⟨0, h⟩).actualTs) := by
      intro x hx
      rcases List.mem_cons.mp hx with rfl | hm
      · exact lt_irrefl _
      · exact not_lt.mpr (List.rel_of_sorted_cons hs x hm)
    have : (y :: ys).filter
        (fun x => x.actualTs < ((y :: ys).get ⟨0, h⟩).actualTs) = [] := by
      rw [List.filter_eq_nil_iff]
      intro a ha
      simpa using hnone a ha
    rw [this]
    rfl
  | y :: ys, hs, hd, i + 1, h => by
    have hlt : i < ys.length := Nat.lt_of_succ_lt_succ h
    have hz : (y :: ys).get ⟨i + 1, h⟩ = ys.get ⟨i, hlt⟩ := rfl
    rw [hz]
    have hzm : ys.get ⟨i, hlt⟩ ∈ ys := ys.get_mem i hlt
    have hyz : y.actualTs < (ys.get ⟨i, hlt⟩).actualTs := by
      have hle : tsLE y (ys.get ⟨i, hlt⟩) := List.rel_of_sorted_cons hs _ hzm
      have hne : y.actualTs ≠ (ys.get ⟨i, hlt⟩).actualTs :=
        (List.pairwise_cons.mp hd).1 _ hzm
      exact lt_of_le_of_ne hle hne
    have IH := sorted_rank ys hs.of_cons (List.pairwise_cons.mp hd).2 i hlt
    simp only [List.get_eq_getElem] at hyz IH
    simp [List.filter_cons, hyz, IH]

theorem countEarlier_sorted_get (db : DB) (id : Int)
    (hd : ((rowsFor db id).map (fun r => r.actualTs)).Nodup)
    (i : Nat) (h : i < (sortByTsAsc (rowsFor db id)).length) :
    countEarlier db id ((sortByTsAsc (rowsFor db id)).get ⟨i, h⟩).actualTs = i := by
  have hperm : (sortByTsAsc (rowsFor db id)).Perm (rowsFor db id) :=
    List.perm_insertionSort tsLE (rowsFor db id)
  have hpw : (rowsFor db id).Pairwise (fun a b => a.actualTs ≠ b.actualTs) :=
    List.pairwise_map.mp hd
  have hpw' : (sortByTsAsc (rowsFor db id)).Pairwise
      (fun a b => a.actualTs ≠ b.actualTs) :=
    (hperm.pairwise_iff (fun hab => Ne.symm hab)).mpr hpw
  have hsorted : (sortByTsAsc (rowsFor db id)).Sorted tsLE :=
    List.sorted_insertionSort tsLE (rowsFor db id)
  have hr := sorted_rank _ hsorted hpw' i h
  unfold countEarlier
  rw [← (hperm.filter _).length_eq]
  exact hr

theorem numberFrom_length (id : Int) :
    ∀ (l : List VersionRow) (v : Int), (numberFrom id v l).length = l.length
  | [], _ => rfl
  | r :: rs, v => by
    simp only [numberFrom, List.length_cons, numberFrom_length id rs (v + 1)]

theorem numberFrom_getElem (id : Int) :
    ∀ (l : List VersionRow) (v : Int) (i : Nat) (r : VersionRow),
      l[i]? = some r →
      (numberFrom id v l)[i]? =
        some ⟨id, v + (i : Int), r.actualTs, r.createdAt, r.attrs.getD []⟩
  | [], _, i, r, h => by simp at h
  | x :: xs, v, 0, r, h => by
    simp only [List.getElem?_cons_zero, Option.some.injEq] at h
    subst h
    simp [numberFrom]
  | x :: xs, v, i + 1, r, h => by
    simp only [List.getElem?_cons_succ] at h
    have hrec := numberFrom_getElem id xs (v + 1) i r h
    simp only [numberFrom, List.getElem?_cons_succ, hrec, Option.some.injEq,
      Record.mk.injEq, and_true, true_and]
    omega

theorem getVersions_ok {db : DB} {id : Int} {l : List Record}
    (h : GetVersions db id = .ok l) :
    l = numberFrom id 1 (sortByTsAsc (rowsFor db id)) := by
  unfold GetVersions at h
  split at h
  · cases h
  · cases h
    rfl

/-! ### Claim theorems -/

/-- Claim C3: `GetRecordAt` returns the version entry with the greatest
effective timestamp strictly less than the query timestamp (never an
entry at exactly that timestamp), and fails with
`ErrRecordDoesNotExist` when no entry of the record lies strictly
before the query timestamp. -/
theorem claim_C3 (db : DB) (id T : Int) :
    (∀ rec, GetRecordAt db id T = .ok rec →
      rec.updatedTimestamp < T ∧
      (∃ row ∈ rowsFor db id,
        row.actualTs = rec.updatedTimestamp ∧
        row.createdAt = rec.reportedTimestamp ∧
        row.attrs = some rec.data) ∧
      (∀ row ∈ rowsFor db id, row.actualTs < T →
        row.actualTs ≤ rec.updatedTimestamp)) ∧
    ((rowsFor db id).filter (fun r => r.actualTs < T) = [] →
      GetRecordAt db id T = .error .recordDoesNotExist) ∧
    (wfForB db id = true →
      (rowsFor db id).filter (fun r => r.actualTs < T) ≠ [] →
      isOkE (GetRecordAt db id T) = true) := by
  refine ⟨?_, ?_, ?_⟩
  · intro rec h
    obtain ⟨r, hm, hat, _, hts, hrep, _⟩ := getRecordAt_ok h
    have hrmem := maxByTs_mem hm
    have hrf := List.mem_filter.mp hrmem
    have hrlt : r.actualTs < T := by simpa using hrf.2
    refine ⟨hts ▸ hrlt, ⟨r, hrf.1, hts.symm, hrep.symm, hat⟩, ?_⟩
    intro row hrow hrowlt
    have : row ∈ (rowsFor db id).filter (fun x => x.actualTs < T) :=
      List.mem_filter.mpr ⟨hrow, by simpa using hrowlt⟩
    exact hts ▸ maxByTs_ge hm row this
  · intro hempty
    unfold GetRecordAt
    rw [hempty]
    rfl
  · intro hwf hne
    cases hmx : maxByTs ((rowsFor db id).filter (fun r => r.actualTs < T)) with
    | none => exact absurd (maxByTs_eq_none.mp hmx) hne
    | some r =>
      have hrmem := List.mem_filter.mp (maxByTs_mem hmx)
      have hsome : r.attrs.isSome = true :=
        List.all_eq_true.mp hwf r hrmem.1
      obtain ⟨m, hm⟩ := Option.isSome_iff_exists.mp hsome
      have hg : GetRecordAt db id T = GetRecordDetails db id (some r) := by
        unfold GetRecordAt
        rw [hmx]
      rw [hg, getRecordDetails_some db id r m hm]
      rfl

/-- Witness for C3 on the concrete three-version history: the query at
180 succeeds, the query at 90 (before every entry) fails. -/
theorem claim_C3_witness :
    isOkE (GetRecordAt dbThree 1 180) = true ∧
    GetRecordAt dbThree 1 90 = .error .recordDoesNotExist :=
  ⟨(claim_C3 dbThree 1 180).2.2 (by decide) (by decide),
   (claim_C3 dbThree 1 90).2.1 (by decide)⟩

/-- Claim C2: the version number reported by `GetRecord`,
`UpdateRecord` and `GetVersions` equals the entry's 1-based rank by
ascending effective timestamp, i.e. one plus the count of entries with
strictly smaller effective timestamp; and a successful update at time
`T` increases the count below every later timestamp by exactly one
while leaving counts at or before `T` unchanged. -/
theorem claim_C2 (db : DB) (now id T : Int) (u : Delta) :
    (∀ rec, GetRecord db id = .ok rec →
      rec.version = (countEarlier db id rec.updatedTimestamp : Int) + 1) ∧
    (∀ db' rec, UpdateRecord db now id T u = (db', .ok rec) →
      rec.version = (countEarlier db' id rec.updatedTimestamp : Int) + 1) ∧
    (((rowsFor db id).map (fun r => r.actualTs)).Nodup →
      ∀ l, GetVersions db id = .ok l →
        ∀ (i : Nat) (rec : Record), l[i]? = some rec →
          rec.version = (countEarlier db id rec.updatedTimestamp : Int) + 1) ∧
    (∀ db' rec, UpdateRecord db now id T u = (db', .ok rec) →
      ∀ ts : Int, countEarlier db' id ts =
        countEarlier db id ts + (if T < ts then 1 else 0)) := by
  refine ⟨?_, ?_, ?_, ?_⟩
  · intro rec h
    obtain ⟨r, _, _, _, hts, _, hv⟩ := getRecord_ok h
    rw [hv, hts]
  · intro db' rec h
    cases hg : GetRecordAt db id T with
    | error e =>
      unfold UpdateRecord at h
      rw [hg] at h
      cases h
    | ok base =>
      rw [updateRecord_ok_shape db now id T u base hg] at h
      cases h
      simp only [countEarlier_dbAfterUpdate]
      simp [lt_irrefl]
  · intro hnd l hl i rec hrec
    have hleq := getVersions_ok hl
    subst hleq
    have hi : i < (sortByTsAsc (rowsFor db id)).length := by
      rcases List.getElem?_eq_some.mp hrec with ⟨hlt, _⟩
      rw [numberFrom_length] at hlt
      exact hlt
    have hrow : (sortByTsAsc (rowsFor db id))[i]? =
        some ((sortByTsAsc (rowsFor db id)).get ⟨i, hi⟩) := by
      rw [List.getElem?_eq_getElem hi]
      rfl
    have hnum := numberFrom_getElem id (sortByTsAsc (rowsFor db id)) 1 i _ hrow
    rw [hnum] at hrec
    have hrc := countEarlier_sorted_get db id hnd i hi
    cases hrec
    simp only [hrc]
    omega
  · intro db' rec h ts
    cases hg : GetRecordAt db id T with
    | error e =>
      unfold UpdateRecord at h
      rw [hg] at h
      cases h
    | ok base =>
      rw [updateRecord_ok_shape db now id T u base hg] at h
      cases h
      rw [countEarlier_dbAfterUpdate]
      simp

/-- Witness for C2 on the concrete history: `GetRecord` reports rank 3
at timestamp 200; the retroactive insert at 150 shifts the count below
200 from 1 to 2; the second element of `GetVersions` carries version 2
with one strictly earlier entry. -/
theorem claim_C2_witness :
    (⟨1, 3, 200, 20, [("hello", "world2"), ("status", "ok")]⟩ : Record).version =
      (countEarlier dbThree 1 200 : Int) + 1 ∧
    countEarlier dbThree 1 200 = countEarlier dbTwo 1 200 + 1 ∧
    (⟨1, 2, 150, 30, [("hello", "world2")]⟩ : Record).version =
      (countEarlier dbThree 1 150 : Int) + 1 := by
  refine ⟨?_, ?_, ?_⟩
  · exact (claim_C2 dbThree 0 1 0 []).1 _ (by decide)
  · have h := (claim_C2 dbTwo 30 1 150 [("hello", some "world2")]).2.2.2
      dbThree ⟨1, 2, 150, 10, [("hello", "world2")]⟩ (by decide) 200
    simpa using h
  · exact (claim_C2 dbThree 0 1 0 []).2.2.1 (by decide)
      [⟨1, 1, 100, 10, [("hello", "world")]⟩,
       ⟨1, 2, 150, 30, [("hello", "world2")]⟩,
       ⟨1, 3, 200, 20, [("hello", "world2"), ("status", "ok")]⟩]
      (by decide) 1 ⟨1, 2, 150, 30, [("hello", "world2")]⟩ (by decide)

/-- Claim C1: a successful `UpdateRecord` at effective time `T`
rewrites in place exactly the already-stored entries of the record with
effective timestamp strictly greater than `T`, replacing their
attributes by the delta applied to their own stored attributes; entries
with effective timestamp at or below `T` (and entries of other records)
are not rewritten. -/
theorem claim_C1 (db : DB) (now id T : Int) (u : Delta)
    (h : isOkE (UpdateRecord db now id T u).2 = true) :
    ∀ (i : Nat) (r : VersionRow), db.versions[i]? = some r →
      (r.recordId = id → T < r.actualTs → ∀ m, r.attrs = some m →
        (UpdateRecord db now id T u).1.versions[i]? =
          some { r with attrs := some (applyUpdates u m) }) ∧
      (¬(r.recordId = id ∧ T < r.actualTs) →
        (UpdateRecord db now id T u).1.versions[i]? = some r) := by
  obtain ⟨base, hb⟩ := updateRecord_ok_base h
  have hE : (UpdateRecord db now id T u).1 =
      dbAfterUpdate db now id T u (applyUpdates u base.data) := by
    rw [updateRecord_ok_shape db now id T u base hb]
  intro i r hr
  have hi : i < db.versions.length := by
    rcases List.getElem?_eq_some.mp hr with ⟨hlt, _⟩
    exact hlt
  have hmap : (UpdateRecord db now id T u).1.versions[i]? =
      some (cascadeRow id T u r) := by
    rw [hE]
    unfold dbAfterUpdate
    rw [List.getElem?_append, if_pos (by simpa using hi), List.getElem?_map, hr]
    rfl
  constructor
  · intro hrec hts m hm
    rw [hmap]
    unfold cascadeRow
    rw [if_pos ⟨hrec, hts⟩]
    simp [hm]
  · intro hneg
    rw [hmap]
    unfold cascadeRow
    rw [if_neg hneg]

/-- Witness for C1: the retroactive update at 150 rewrites the stored
entry at 200 by applying the delta to its stored attributes, and leaves
the entry at 100 untouched. -/
theorem claim_C1_witness :
    (UpdateRecord dbTwo 30 1 150 [("hello", some "world2")]).1.versions[1]? =
      some ⟨2, 1, 200, 20, some [("hello", "world2"), ("status", "ok")]⟩ ∧
    (UpdateRecord dbTwo 30 1 150 [("hello", some "world2")]).1.versions[0]? =
      some ⟨1, 1, 100, 10, some [("hello", "world")]⟩ := by
  constructor
  · have h := (claim_C1 dbTwo 30 1 150 [("hello", some "world2")] (by decide) 1
      ⟨2, 1, 200, 20, some [("hello", "world"), ("status", "ok")]⟩ (by decide)).1
      rfl (by decide) _ rfl
    exact h.trans (by decide)
  · exact (claim_C1 dbTwo 30 1 150 [("hello", some "world2")] (by decide) 0
      ⟨1, 1, 100, 10, some [("hello", "world")]⟩ (by decide)).2 (by decide)

/-- Claim C7: a successful `UpdateRecord` only ever touches the
`attributes` field of strictly later entries of the same record: every
stored row keeps its row id, record id, effective timestamp and
reported timestamp, rows at or before `T` and rows of other records are
byte-for-byte unchanged, and no row is deleted (the table grows by
exactly the one inserted row). -/
theorem claim_C7 (db : DB) (now id T : Int) (u : Delta)
    (h : isOkE (UpdateRecord db now id T u).2 = true) :
    (UpdateRecord db now id T u).1.versions.length = db.versions.length + 1 ∧
    ∀ (i : Nat) (r : VersionRow), db.versions[i]? = some r →
      ∃ r', (UpdateRecord db now id T u).1.versions[i]? = some r' ∧
        r'.rowId = r.rowId ∧ r'.recordId = r.recordId ∧
        r'.actualTs = r.actualTs ∧ r'.createdAt = r.createdAt ∧
        (r.actualTs ≤ T → r' = r) ∧ (r.recordId ≠ id → r' = r) := by
  obtain ⟨base, hb⟩ := updateRecord_ok_base h
  have hE : (UpdateRecord db now id T u).1 =
      dbAfterUpdate db now id T u (applyUpdates u base.data) := by
    rw [updateRecord_ok_shape db now id T u base hb]
  constructor
  · rw [hE]
    unfold dbAfterUpdate
    simp
  · intro i r hr
    have hi : i < db.versions.length := by
      rcases List.getElem?_eq_some.mp hr with ⟨hlt, _⟩
      exact hlt
    refine ⟨cascadeRow id T u r, ?_, ?_⟩
    · rw [hE]
      unfold dbAfterUpdate
      rw [List.getElem?_append, if_pos (by simpa using hi), List.getElem?_map, hr]
      rfl
    · obtain ⟨h1, h2, h3, h4⟩ := cascadeRow_preserves id T u r
      refine ⟨h1, h2, h3, h4, ?_, ?_⟩
      · intro hle
        unfold cascadeRow
        rw [if_neg (by intro hc; exact absurd hle (not_le.mpr hc.2))]
      · intro hne
        unfold cascadeRow
        rw [if_neg (by intro hc; exact hne hc.1)]

/-- Witness for C7: the retroactive update keeps the table length and
the identifying fields of the entry at 200. -/
theorem claim_C7_witness :
    (UpdateRecord dbTwo 30 1 150 [("hello", some "world2")]).1.versions.length =
      dbTwo.versions.length + 1 :=
  (claim_C7 dbTwo 30 1 150 [("hello", some "world2")] (by decide)).1

/-- Counterexample to claim C4: record 1 exists (it has an entry at
t=100), yet an update at the earlier effective time 50 does not succeed
with an empty base map — it fails with `ErrRecordDoesNotExist`. -/
theorem claim_C4_counterexample :
    rowsFor dbOne 1 ≠ [] ∧
    UpdateRecord dbOne 20 1 50 [("k", some "v")] =
      (dbOne, .error .recordDoesNotExist) := by decide

/-- Claim C4 (amended): `UpdateRecord` fails with
`ErrRecordDoesNotExist` exactly when the record has no entry with
effective timestamp strictly before the update's effective time (stored
payloads assumed well formed); there is no empty-map fallback, so an
update at or before the record's earliest entry is rejected even though
the record has entries. -/
theorem claim_C4_amended (db : DB) (now id T : Int) (u : Delta)
    (hwf : wfForB db id = true) :
    (UpdateRecord db now id T u).2 = .error .recordDoesNotExist ↔
      (rowsFor db id).filter (fun r => r.actualTs < T) = [] := by
  constructor
  · intro h
    by_contra hne
    cases hmx : maxByTs ((rowsFor db id).filter (fun r => r.actualTs < T)) with
    | none => exact absurd (maxByTs_eq_none.mp hmx) hne
    | some r =>
      have hrmem := List.mem_filter.mp (maxByTs_mem hmx)
      have hsome : r.attrs.isSome = true := List.all_eq_true.mp hwf r hrmem.1
      obtain ⟨m, hm⟩ := Option.isSome_iff_exists.mp hsome
      have hga : GetRecordAt db id T =
          .ok ⟨id, (countEarlier db id r.actualTs : Int) + 1, r.actualTs,
               r.createdAt, m⟩ := by
        have hg : GetRecordAt db id T = GetRecordDetails db id (some r) := by
          unfold GetRecordAt
          rw [hmx]
        rw [hg, getRecordDetails_some db id r m hm]
      rw [updateRecord_ok_shape db now id T u _ hga] at h
      cases h
  · intro hempty
    have hga : GetRecordAt db id T = .error .recordDoesNotExist := by
      unfold GetRecordAt
      rw [hempty]
      rfl
    unfold UpdateRecord
    rw [hga]

/-- Witness for the amended C4 at the concrete input of the
counterexample. -/
theorem claim_C4_witness :
    (UpdateRecord dbOne 20 1 50 [("k", some "v")]).2 =
      .error .recordDoesNotExist :=
  (claim_C4_amended dbOne 20 1 50 [("k", some "v")] (by decide)).mpr (by decide)

/-- Counterexample to claim C5: an update whose effective timestamp 200
exactly matches an existing entry's timestamp is not rejected with a
duplicate-timestamp error — it succeeds and leaves two entries of
record 1 at timestamp 200. -/
theorem claim_C5_counterexample :
    isOkE (UpdateRecord dbTwo 40 1 200 [("x", some "y")]).2 = true ∧
    ((UpdateRecord dbTwo 40 1 200 [("x", some "y")]).1.versions.filter
      (fun r => r.recordId = 1 ∧ r.actualTs = 200)).length = 2 := by decide

/-- Claim C5 (amended): `UpdateRecord` performs no duplicate-timestamp
check: every successful update adds exactly one entry at its effective
timestamp, so if an entry at that timestamp already exists (and some
strictly earlier entry lets the update succeed) the chain ends up with
two entries sharing an effective timestamp. -/
theorem claim_C5_amended (db : DB) (now id T : Int) (u : Delta)
    (h : isOkE (UpdateRecord db now id T u).2 = true) :
    ((UpdateRecord db now id T u).1.versions.filter
        (fun r => r.recordId = id ∧ r.actualTs = T)).length =
      (db.versions.filter (fun r => r.recordId = id ∧ r.actualTs = T)).length + 1 ∧
    (1 ≤ (db.versions.filter (fun r => r.recordId = id ∧ r.actualTs = T)).length →
      2 ≤ ((UpdateRecord db now id T u).1.versions.filter
        (fun r => r.recordId = id ∧ r.actualTs = T)).length) := by
  obtain ⟨base, hb⟩ := updateRecord_ok_base h
  have hE : (UpdateRecord db now id T u).1 =
      dbAfterUpdate db now id T u (applyUpdates u base.data) := by
    rw [updateRecord_ok_shape db now id T u base hb]
  have hmain : ((UpdateRecord db now id T u).1.versions.filter
      (fun r => r.recordId = id ∧ r.actualTs = T)).length =
      (db.versions.filter (fun r => r.recordId = id ∧ r.actualTs = T)).length + 1 := by
    rw [hE]
    unfold dbAfterUpdate
    rw [← List.countP_eq_length_filter, ← List.countP_eq_length_filter,
      List.countP_append, List.countP_map]
    have hcongr : db.versions.countP
        ((fun r => decide (r.recordId = id ∧ r.actualTs = T)) ∘ cascadeRow id T u) =
        db.versions.countP (fun r => decide (r.recordId = id ∧ r.actualTs = T)) := by
      refine List.countP_congr ?_
      intro r _
      obtain ⟨_, h2, h3, _⟩ := cascadeRow_preserves id T u r
      simp [Function.comp, h2, h3]
    rw [hcongr]
    simp [List.countP_cons]
  exact ⟨hmain, fun hone => by omega⟩

/-- Witness for the amended C5 at the duplicate-insert input. -/
theorem claim_C5_witness :
    ((UpdateRecord dbTwo 40 1 200 [("x", some "y")]).1.versions.filter
        (fun r => r.recordId = 1 ∧ r.actualTs = 200)).length =
      (dbTwo.versions.filter (fun r => r.recordId = 1 ∧ r.actualTs = 200)).length + 1 :=
  (claim_C5_amended dbTwo 40 1 200 [("x", some "y")] (by decide)).1

/-- Counterexample to claim C6: updating record 1 (whose only entry was
stored with created_at 10) at insertion time now = 999 returns a record
whose reported timestamp is 10 — the base entry's created_at — not 999,
even though the newly inserted row stores created_at = 999. -/
theorem claim_C6_counterexample :
    (UpdateRecord dbOne 999 1 200 [("status", some "ok")]).2 =
      .ok ⟨1, 2, 200, 10, [("hello", "world"), ("status", "ok")]⟩ ∧
    (UpdateRecord dbOne 999 1 200 [("status", some "ok")]).1.versions =
      [⟨1, 1, 100, 10, some [("hello", "world")]⟩,
       ⟨2, 1, 200, 999, some [("hello", "world"), ("status", "ok")]⟩] ∧
    (10 : Int) ≠ 999 := by decide

/-- Claim C6 (amended): on success `UpdateRecord` returns the record
with the new entry's derived rank, the update's effective timestamp,
and the base attributes with the delta applied — but its reported
timestamp is the base entry's created_at (the record returned by
`GetRecordAt`), not the insertion time; the insertion time `now` is
stored only in the new row's created_at column. -/
theorem claim_C6_amended (db : DB) (now id T : Int) (u : Delta) (base : Record)
    (h : GetRecordAt db id T = .ok base) :
    (UpdateRecord db now id T u).2 =
      .ok ⟨id, (countEarlier db id T : Int) + 1, T, base.reportedTimestamp,
           applyUpdates u base.data⟩ ∧
    (UpdateRecord db now id T u).1.versions =
      db.versions.map (cascadeRow id T u) ++
        [⟨db.nextRowId, id, T, now, some (applyUpdates u base.data)⟩] := by
  rw [updateRecord_ok_shape db now id T u base h]
  exact ⟨rfl, rfl⟩

/-- Witness for the amended C6 at the counterexample's input. -/
theorem claim_C6_witness :
    (UpdateRecord dbOne 999 1 200 [("status", some "ok")]).2 =
      .ok ⟨1, (countEarlier dbOne 1 200 : Int) + 1, 200, 10,
           applyUpdates [("status", some "ok")] [("hello", "world")]⟩ :=
  (claim_C6_amended dbOne 999 1 200 [("status", some "ok")]
    ⟨1, 1, 100, 10, [("hello", "world")]⟩ (by decide)).1

/-! ### Association-list lookup lemmas for the upsert path -/

theorem lookup_map_setKeyFn (q v : String) : ∀ (m : Attrs) (k : String), q ≠ k →
    (m.map (fun p => if p.1 = q then (q, v) else p)).lookup k = m.lookup k
  | [], _, _ => rfl
  | (a, b) :: m, k, hqk => by
    simp only [List.map_cons]
    by_cases haq : a = q
    · subst haq
      rw [if_pos rfl]
      have h1 : (k == a) = false := by simp [Ne.symm hqk]
      simp [List.lookup, h1, lookup_map_setKeyFn a v m k hqk]
    · rw [if_neg haq]
      by_cases hka : k = a
      · subst hka
        simp [List.lookup]
      · have h1 : (k == a) = false := by simp [hka]
        simp [List.lookup, h1, lookup_map_setKeyFn q v m k hqk]

theorem lookup_append_single : ∀ (m : Attrs) (k q v : String), q ≠ k →
    (m ++ [(q, v)]).lookup k = m.lookup k
  | [], k, q, v, hqk => by
    have h1 : (k == q) = false := by simp [Ne.symm hqk]
    simp [List.lookup, h1]
  | (a, b) :: m, k, q, v, hqk => by
    simp only [List.cons_append]
    by_cases hka : k = a
    · subst hka
      simp [List.lookup]
    · have h1 : (k == a) = false := by simp [hka]
      simp [List.lookup, h1, lookup_append_single m k q v hqk]

theorem lookup_setKey_ne (m : Attrs) (k q v : String) (hqk : q ≠ k) :
    (setKey m q v).lookup k = m.lookup k := by
  unfold setKey
  by_cases hany : m.any (fun p => p.1 = q)
  · rw [if_pos hany]
    exact lookup_map_setKeyFn q v m k hqk
  · rw [if_neg hany]
    exact lookup_append_single m k q v hqk

theorem lookup_map_setKeyFn_self (v : String) : ∀ (m : Attrs) (k : String),
    m.any (fun p => p.1 = k) = true →
    (m.map (fun p => if p.1 = k then (k, v) else p)).lookup k = some v
  | [], k, h => by simp at h
  | (a, b) :: m, k, h => by
    simp only [List.map_cons]
    by_cases hak : a = k
    · subst hak
      rw [if_pos rfl]
      simp [List.lookup]
    · rw [if_neg hak]
      have h2 : m.any (fun p => p.1 = k) = true := by
        simpa [List.any_cons, hak] using h
      have h1 : (k == a) = false := by simp [Ne.symm hak]
      simp [List.lookup, h1, lookup_map_setKeyFn_self v m k h2]

theorem lookup_append_single_self : ∀ (m : Attrs) (k v : String),
    (∀ p ∈ m, p.1 ≠ k) →
    (m ++ [(k, v)]).lookup k = some v
  | [], k, v, _ => by simp [List.lookup]
  | (a, b) :: m, k, v, h => by
    simp only [List.cons_append]
    have hak : a ≠ k := h (a, b) (List.mem_cons_self _ _)
    have h1 : (k == a) = false := by simp [Ne.symm hak]
    simp [List.lookup, h1,
      lookup_append_single_self m k v (fun p hp => h p (List.mem_cons_of_mem _ hp))]

theorem lookup_setKey_self (m : Attrs) (k v : String) :
    (setKey m k v).lookup k = some v := by
  unfold setKey
  by_cases hany : m.any (fun p => p.1 = k)
  · rw [if_pos hany]
    exact lookup_map_setKeyFn_self v m k hany
  · rw [if_neg hany]
    refine lookup_append_single_self m k v ?_
    intro p hp hc
    have : m.any (fun p => p.1 = k) = true :=
      List.any_eq_true.mpr ⟨p, hp, by simp [hc]⟩
    exact hany this

theorem dropDelStep_foldl_lookup_ne : ∀ (body : Delta) (acc : Attrs) (k : String),
    (∀ p ∈ body, p.1 ≠ k) →
    (body.foldl dropDelStep acc).lookup k = acc.lookup k
  | [], _, _, _ => rfl
  | p :: body, acc, k, h => by
    rw [List.foldl_cons,
      dropDelStep_foldl_lookup_ne body _ k (fun q hq => h q (List.mem_cons_of_mem _ hq))]
    obtain ⟨a, ov⟩ := p
    have hak : a ≠ k := h (a, ov) (List.mem_cons_self _ _)
    cases ov with
    | none => rfl
    | some v => exact lookup_setKey_ne acc k a v hak

theorem dropDel_go : ∀ (body : Delta) (acc : Attrs),
    (body.map Prod.fst).Nodup → ∀ k,
    (body.foldl dropDelStep acc).lookup k =
      match body.lookup k with
      | some (some v) => some v
      | some none => acc.lookup k
      | none => acc.lookup k
  | [], _, _, _ => rfl
  | (a, ov) :: body, acc, hnd, k => by
    have hnd' : (body.map Prod.fst).Nodup := by
      simp only [List.map_cons, List.nodup_cons] at hnd
      exact hnd.2
    have hnotin : a ∉ body.map Prod.fst := by
      simp only [List.map_cons, List.nodup_cons] at hnd
      exact hnd.1
    rw [List.foldl_cons]
    by_cases hka : k = a
    · subst hka
      have hkeys : ∀ p ∈ body, p.1 ≠ k := by
        intro p hp hc
        exact hnotin (hc ▸ List.mem_map_of_mem Prod.fst hp)
      rw [dropDelStep_foldl_lookup_ne body _ k hkeys]
      have hlk : ((k, ov) :: body).lookup k = some ov := by simp [List.lookup]
      rw [hlk]
      cases ov with
      | none => rfl
      | some v => exact lookup_setKey_self acc k v
    · have h1 : (k == a) = false := by simp [hka]
      have hlk : ((a, ov) :: body).lookup k = body.lookup k := by
        simp [List.lookup, h1]
      rw [hlk, dropDel_go body (dropDelStep acc (a, ov)) hnd' k]
      have hstep : (dropDelStep acc (a, ov)).lookup k = acc.lookup k := by
        cases ov with
        | none => rfl
        | some v => exact lookup_setKey_ne acc k a v (Ne.symm hka)
      cases hbl : body.lookup k with
      | none => exact hstep
      | some o =>
        cases o with
        | none => exact hstep
        | some v => rfl

theorem dropDeletions_lookup (body : Delta) (hnd : (body.map Prod.fst).Nodup)
    (k : String) :
    (dropDeletions body).lookup k =
      match body.lookup k with
      | some (some v) => some v
      | _ => none := by
  unfold dropDeletions
  rw [dropDel_go body [] hnd k]
  cases body.lookup k with
  | none => rfl
  | some o => cases o <;> rfl

theorem createRecord_fresh (db : DB) (now : Int) (rec : Record)
    (h : rec.id ∉ db.recordIds) :
    CreateRecord db now rec =
      ({ recordIds := db.recordIds ++ [rec.id],
         versions := db.versions ++
           [⟨db.nextRowId, rec.id, rec.updatedTimestamp, now, some rec.data⟩],
         nextRowId := db.nextRowId + 1 },
       .ok ⟨rec.id, 1, rec.updatedTimestamp, now, rec.data⟩) := by
  unfold CreateRecord
  have hfil : db.recordIds.filter (fun i => i = rec.id) = [] := by
    rw [List.filter_eq_nil_iff]
    intro a ha
    simp only [decide_eq_true_eq]
    intro hc
    exact h (hc ▸ ha)
  simp [hfil]

/-- Claim C8: `ProcessInput` checks existence through `GetRecord`; on
`ErrRecordDoesNotExist` it creates version 1 from the body with every
deletion-marker (nil) key dropped, otherwise it delegates to
`UpdateRecord`; in both cases the underlying call's result and error
are returned unchanged. -/
theorem claim_C8 (db : DB) (now recId T : Int) (body : Delta) :
    (GetRecord db recId = .error .recordDoesNotExist →
      ProcessInput db now recId T body =
        CreateRecord db now ⟨recId, 1, T, 0, dropDeletions body⟩) ∧
    (∀ rec, GetRecord db recId = .ok rec →
      ProcessInput db now recId T body = UpdateRecord db now recId T body) ∧
    (GetRecord db recId = .error .recordDoesNotExist → recId ∉ db.recordIds →
      (ProcessInput db now recId T body).2 =
        .ok ⟨recId, 1, T, now, dropDeletions body⟩) ∧
    ((body.map Prod.fst).Nodup → ∀ k,
      (dropDeletions body).lookup k =
        match body.lookup k with
        | some (some v) => some v
        | _ => none) := by
  refine ⟨?_, ?_, ?_, ?_⟩
  · intro h
    unfold ProcessInput
    rw [h]
  · intro rec h
    unfold ProcessInput
    rw [h]
  · intro h hmem
    unfold ProcessInput
    rw [h]
    rw [createRecord_fresh db now ⟨recId, 1, T, 0, dropDeletions body⟩ hmem]
  · exact fun hnd k => dropDeletions_lookup body hnd k

/-- Witness for C8: creating a fresh record drops the nil-valued key,
and an update on an existing record is delegated verbatim. -/
theorem claim_C8_witness :
    ProcessInput dbEmpty 7 1 100 [("hello", some "world"), ("gone", none)] =
      CreateRecord dbEmpty 7
        ⟨1, 1, 100, 0, dropDeletions [("hello", some "world"), ("gone", none)]⟩ ∧
    (ProcessInput dbEmpty 7 1 100 [("hello", some "world"), ("gone", none)]).2 =
      .ok ⟨1, 1, 100, 7, dropDeletions [("hello", some "world"), ("gone", none)]⟩ ∧
    ProcessInput dbOne 20 1 200 [("status", some "ok")] =
      UpdateRecord dbOne 20 1 200 [("status", some "ok")] ∧
    (dropDeletions [("hello", some "world"), ("gone", none)]).lookup "gone" = none := by
  refine ⟨?_, ?_, ?_, ?_⟩
  · exact (claim_C8 dbEmpty 7 1 100 [("hello", some "world"), ("gone", none)]).1
      (by decide)
  · exact (claim_C8 dbEmpty 7 1 100 [("hello", some "world"), ("gone", none)]).2.2.1
      (by decide) (by decide)
  · exact (claim_C8 dbOne 20 1 200 [("status", some "ok")]).2.1
      ⟨1, 1, 100, 10, [("hello", "world")]⟩ (by decide)
  · have h := (claim_C8 dbEmpty 7 1 100
      [("hello", some "world"), ("gone", none)]).2.2.2 (by decide) "gone"
    exact h.trans (by decide)

/-- Claim C9: the versioned-record endpoint rejects every requested
version below 1 up front, fails when the requested version exceeds the
number of entries, and otherwise returns the entry at ascending rank
`n` (1-based by effective timestamp): the returned entry has exactly
`n - 1` strictly earlier entries. -/
theorem claim_C9 (db : DB) (id n : Int) :
    (n < 1 → ApiGetVersionedRecord db id n = .error .invalidVersion) ∧
    (1 ≤ n → ((rowsFor db id).length : Int) < n →
      ApiGetVersionedRecord db id n = .error .svcFailed) ∧
    (1 ≤ n → ∀ r, (sortByTsAsc (rowsFor db id))[(n - 1).toNat]? = some r →
      ApiGetVersionedRecord db id n =
        .ok ⟨id, n, r.actualTs, r.createdAt, r.attrs.getD []⟩) ∧
    (((rowsFor db id).map (fun r => r.actualTs)).Nodup → 1 ≤ n →
      ∀ r, (sortByTsAsc (rowsFor db id))[(n - 1).toNat]? = some r →
        (countEarlier db id r.actualTs : Int) + 1 = n) := by
  refine ⟨?_, ?_, ?_, ?_⟩
  · intro h
    unfold ApiGetVersionedRecord
    rw [if_pos h]
  · intro h1 h2
    have hlen : (sortByTsAsc (rowsFor db id)).length = (rowsFor db id).length :=
      (List.perm_insertionSort tsLE (rowsFor db id)).length_eq
    have hnone : (sortByTsAsc (rowsFor db id))[sqlOffset n]? = none := by
      apply List.getElem?_eq_none
      unfold sqlOffset
      omega
    unfold ApiGetVersionedRecord
    rw [if_neg (by omega)]
    unfold GetVersionedRecord
    rw [hnone]
  · intro h1 r hr
    unfold ApiGetVersionedRecord
    rw [if_neg (by omega)]
    unfold GetVersionedRecord sqlOffset
    rw [hr]
  · intro hnd h1 r hr
    have hi : (n - 1).toNat < (sortByTsAsc (rowsFor db id)).length := by
      rcases List.getElem?_eq_some.mp hr with ⟨hlt, _⟩
      exact hlt
    have hget : (sortByTsAsc (rowsFor db id)).get ⟨(n - 1).toNat, hi⟩ = r := by
      rcases List.getElem?_eq_some.mp hr with ⟨_, hg⟩
      simpa using hg
    have hc := countEarlier_sorted_get db id hnd (n - 1).toNat hi
    rw [hget] at hc
    omega

/-- Witness for C9 on the three-version history: version 0 is rejected,
version 4 is out of range, version 2 is the middle entry with exactly
one strictly earlier entry. -/
theorem claim_C9_witness :
    ApiGetVersionedRecord dbThree 1 0 = .error .invalidVersion ∧
    ApiGetVersionedRecord dbThree 1 4 = .error .svcFailed ∧
    ApiGetVersionedRecord dbThree 1 2 = .ok ⟨1, 2, 150, 30, [("hello", "world2")]⟩ ∧
    (countEarlier dbThree 1 150 : Int) + 1 = 2 := by
  refine ⟨?_, ?_, ?_, ?_⟩
  · exact (claim_C9 dbThree 1 0).1 (by decide)
  · exact (claim_C9 dbThree 1 4).2.1 (by decide) (by decide)
  · have h := (claim_C9 dbThree 1 2).2.2.1 (by decide)
      ⟨3, 1, 150, 30, some [("hello", "world2")]⟩ (by decide)
    exact h.trans (by decide)
  · exact (claim_C9 dbThree 1 2).2.2.2 (by decide) (by decide)
      ⟨3, 1, 150, 30, some [("hello", "world2")]⟩ (by decide)

/-- A record whose single stored payload does not unmarshal. -/
def dbBad : DB := ⟨[1], [⟨1, 1, 100, 5, none⟩], 2⟩

/-- A record whose earlier entry has a corrupted payload while the
latest entry unmarshals. -/
def dbMixed : DB :=
  ⟨[1], [⟨1, 1, 100, 5, none⟩, ⟨2, 1, 200, 6, some [("a", "b")]⟩], 3⟩

/-- Counterexample to claim C10: when the corrupted payload belongs to
the (only, hence latest) entry, `GetVersions` does return an error —
the existence check through `GetRecord` fails on the unmarshal. -/
theorem claim_C10_counterexample :
    rowsFor dbBad 1 ≠ [] ∧
    GetVersions dbBad 1 = .error .recordDoesNotExist := by decide

/-- Claim C10 (amended): `GetVersionedRecord` never fails on a stored
payload — a row that does not unmarshal is returned with empty (nil)
attributes; `GetVersions` likewise returns every position, with empty
attributes at corrupted rows, provided the latest entry's payload
unmarshals — but when the latest entry itself is corrupted the initial
existence check makes `GetVersions` fail with
`ErrRecordDoesNotExist`. -/
theorem claim_C10_amended (db : DB) (id : Int) :
    (∀ (n : Int) (r : VersionRow),
      (sortByTsAsc (rowsFor db id))[sqlOffset n]? = some r →
      GetVersionedRecord db id n =
        .ok ⟨id, n, r.actualTs, r.createdAt, r.attrs.getD []⟩) ∧
    (∀ lat, maxByTs (rowsFor db id) = some lat → lat.attrs.isSome = true →
      GetVersions db id = .ok (numberFrom id 1 (sortByTsAsc (rowsFor db id)))) ∧
    (∀ (i : Nat) (r : VersionRow), (sortByTsAsc (rowsFor db id))[i]? = some r →
      (numberFrom id 1 (sortByTsAsc (rowsFor db id)))[i]? =
        some ⟨id, 1 + (i : Int), r.actualTs, r.createdAt, r.attrs.getD []⟩) ∧
    (∀ lat, maxByTs (rowsFor db id) = some lat → lat.attrs = none →
      GetVersions db id = .error .recordDoesNotExist) := by
  refine ⟨?_, ?_, ?_, ?_⟩
  · intro n r hr
    unfold GetVersionedRecord
    rw [hr]
  · intro lat hlat hsome
    obtain ⟨m, hm⟩ := Option.isSome_iff_exists.mp hsome
    have hg : GetRecord db id = GetRecordDetails db id (some lat) := by
      unfold GetRecord
      rw [hlat]
    unfold GetVersions
    rw [hg, getRecordDetails_some db id lat m hm]
  · intro i r hr
    exact numberFrom_getElem id (sortByTsAsc (rowsFor db id)) 1 i r hr
  · intro lat hlat hnone
    have hg : GetRecord db id = GetRecordDetails db id (some lat) := by
      unfold GetRecord
      rw [hlat]
    have hdet : GetRecordDetails db id (some lat) = .error .recordDoesNotExist := by
      obtain ⟨a, b, c, d, at0⟩ := lat
      cases hnone
      rfl
    unfold GetVersions
    rw [hg, hdet]

/-- Witness for the amended C10: the corrupted position is returned
with empty attributes by both readers when the latest payload is fine,
and `GetVersions` fails when the corrupted entry is the latest. -/
theorem claim_C10_witness :
    GetVersionedRecord dbMixed 1 1 = .ok ⟨1, 1, 100, 5, []⟩ ∧
    GetVersions dbMixed 1 =
      .ok [⟨1, 1, 100, 5, []⟩, ⟨1, 2, 200, 6, [("a", "b")]⟩] ∧
    GetVersions dbBad 1 = .error .recordDoesNotExist := by
  refine ⟨?_, ?_, ?_⟩
  · have h := (claim_C10_amended dbMixed 1).1 1 ⟨1, 1, 100, 5, none⟩ (by decide)
    exact h.trans (by decide)
  · have h := (claim_C10_amended dbMixed 1).2.1 ⟨2, 1, 200, 6, some [("a", "b")]⟩
      (by decide) (by decide)
    exact h.trans (by decide)
  · exact (claim_C10_amended dbBad 1).2.2.2 ⟨1, 1, 100, 5, none⟩ (by decide) rfl
